import Mathlib

/-!
Verification of the acoupipe dataset-generation core.

The development shallowly embeds the sampling-and-pipeline engine of the
repository: the seed schedule, the sampler variants, the sequential and
distributed pipeline runs, the feature-record layout, the feature cache,
and two concrete configuration functions (`DatasetMIRACLEConfig.get_sampler`
and `DatasetMIRACLE.get_feature_collection`).  Parts of the engine are only
called, not defined, in the repository snapshot; those are modelled from the
specification and marked as such in their doc comments.
-/

/-- Modelled from the spec: the dataset split names ("training" and
"validation") used by `set_pipeline_seeds` in `helper.py`, which is imported
by `dataset/main.py` but absent from the snapshot.  A split is a named
partition of the dataset with an isolated seed space. -/
inductive Split
  | training
  | validation
deriving DecidableEq

/-- Modelled from the spec: the per-split seed offset of the seed schedule
(`set_pipeline_seeds`, absent from the snapshot).  The validation split is
placed at a large offset so that the two splits draw from disjoint seed
sets. -/
def splitOffset : Split → Nat
  | Split.training => 0
  | Split.validation => 1000000000

/-- The number of sampler slots of the pipeline configured in
`dataset/main.py`: `[mic_sampling, nsrc_sampling, src_sampling,
rms_sampling, pos_sampling]`. -/
def numSlots : Nat := 5

/-- Modelled from the spec: the pure seed schedule
`seed(split, idx, slot) -> integer` (the `set_pipeline_seeds` helper is
absent from the snapshot).  It is a function of the split, the sample index
and the sampler slot only: no process state enters. -/
def seed (split : Split) (idx slot : Nat) : Nat :=
  splitOffset split + (idx * numSlots + slot)

/-- The ordered seed list used for one sample: one seed per sampler slot. -/
def seedsForSample (split : Split) (idx : Nat) : List Nat :=
  (List.range numSlots).map (seed split idx)

/-- Modelled from the spec: the full seed schedule an orchestrator
precomputes for a run of `n` samples (the list-of-seed-lists that
`set_pipeline_seeds` installs on the pipeline object). -/
def seedSchedule (split : Split) (n : Nat) : List (List Nat) :=
  (List.range n).map (seedsForSample split)

/-- Modelled from the spec: a distributed worker derives the seed for its
task directly from `(split, idx, slot)`; seed derivation requires no shared
state, so the derivation ignores everything else a worker knows. -/
def workerDerivedSeed (workerId : Nat) (split : Split) (idx slot : Nat) : Nat :=
  seed split idx slot

/-- C2: the seed schedule is a pure function of `(split, idx, slot)`: the
value looked up in the orchestrator's precomputed schedule coincides with
the value any worker (whatever its id) derives independently, so two
independent executions with the same configuration and base offsets produce
byte-identical seed schedules. -/
theorem seed_schedule_pure (split : Split) (n idx slot wid : Nat)
    (h1 : idx < n) (h2 : slot < numSlots) :
    ((seedSchedule split n).getD idx []).getD slot 0 =
      workerDerivedSeed wid split idx slot := by
  simp [seedSchedule, seedsForSample, workerDerivedSeed,
    List.getD_eq_getElem?_getD, List.getElem?_map, List.getElem?_range, h1, h2]

/-- Witness for C2 at `split = training`, `n = 50`, `idx = 7`, `slot = 3`,
worker id `2`. -/
theorem seed_schedule_pure_witness :
    ((seedSchedule Split.training 50).getD 7 []).getD 3 0 =
      workerDerivedSeed 2 Split.training 7 3 :=
  seed_schedule_pure Split.training 50 7 3 2 (by decide) (by decide)

/-- C3: split isolation — within a run of `n` samples (with the slot count
and sample count within the validation offset), the seed produced for the
training split at any `(idx1, slot)` differs from the seed produced for the
validation split at any `(idx2, slot)`: the two splits' seed sets are
disjoint. -/
theorem split_isolation (n idx1 idx2 slot : Nat)
    (h1 : idx1 < n) (h2 : idx2 < n) (hs : slot < numSlots)
    (hn : n * numSlots ≤ 1000000000) :
    seed Split.training idx1 slot ≠ seed Split.validation idx2 slot := by
  simp only [seed, splitOffset, numSlots] at *
  omega

/-- Witness for C3 at `n = 50`, `idx1 = 3`, `idx2 = 7`, `slot = 2`. -/
theorem split_isolation_witness :
    seed Split.training 3 2 ≠ seed Split.validation 7 2 :=
  split_isolation 50 3 7 2 (by decide) (by decide) (by decide) (by decide)

/-- The sampler objects a `DatasetMIRACLEConfig` can place in its sampler
dict (`create_sampler` in `src/acoupipe/datasets/experimental.py`). -/
inductive SamplerRef
  | signalSeed
  | rms
  | location
  | nsources
  | micNoise
deriving DecidableEq

/-- The configuration fields of `DatasetMIRACLEConfig` that
`get_sampler` reads. -/
structure MIRACLEConfig where
  min_nsources : Nat
  max_nsources : Nat
  mic_sig_noise : Bool

/-- Embedding of `DatasetMIRACLEConfig.get_sampler`
(`src/acoupipe/datasets/experimental.py`, lines 398-410): builds the dict
`{2: signal_seed_sampler, 3: rms_sampler, 4: location_sampler}`, then adds
`0: nsources_sampler` when `max_nsources != min_nsources` and
`5: mic_noise_sampler` when `mic_sig_noise` is set.  The dict is embedded
as an association list in insertion order. -/
def get_sampler (c : MIRACLEConfig) : List (Nat × SamplerRef) :=
  let sampler := [(2, SamplerRef.signalSeed), (3, SamplerRef.rms), (4, SamplerRef.location)]
  let sampler :=
    if c.max_nsources ≠ c.min_nsources then sampler ++ [(0, SamplerRef.nsources)] else sampler
  if c.mic_sig_noise then sampler ++ [(5, SamplerRef.micNoise)] else sampler

/-- C9: for every `DatasetMIRACLEConfig`, `get_sampler` returns a mapping
with pairwise-distinct integer slot keys; slots 2 (signal seed), 3 (rms)
and 4 (location) are always present; slot 0 (number of sources) is present
iff `max_nsources != min_nsources` and is strictly smaller than every other
occupied slot; slot 5 (microphone noise) is present iff `mic_sig_noise`. -/
theorem get_sampler_slots (c : MIRACLEConfig) :
    ((get_sampler c).map Prod.fst).Nodup ∧
    List.lookup 2 (get_sampler c) = some SamplerRef.signalSeed ∧
    List.lookup 3 (get_sampler c) = some SamplerRef.rms ∧
    List.lookup 4 (get_sampler c) = some SamplerRef.location ∧
    ((List.lookup 0 (get_sampler c) = some SamplerRef.nsources) ↔
      c.max_nsources ≠ c.min_nsources) ∧
    (∀ k ∈ (get_sampler c).map Prod.fst, k ≠ 0 → 0 < k) ∧
    ((List.lookup 5 (get_sampler c) = some SamplerRef.micNoise) ↔
      c.mic_sig_noise = true) := by
  obtain ⟨mn, mx, noise⟩ := c
  by_cases h : mx ≠ mn <;> cases noise <;>
    simp_all [get_sampler] <;> decide

/-- Witness for C9 at the configuration `min_nsources = 1`,
`max_nsources = 10`, `mic_sig_noise = true` (the `DatasetMIRACLE`
defaults). -/
theorem get_sampler_slots_witness :
    ((get_sampler ⟨1, 10, true⟩).map Prod.fst).Nodup ∧
    List.lookup 2 (get_sampler ⟨1, 10, true⟩) = some SamplerRef.signalSeed ∧
    List.lookup 3 (get_sampler ⟨1, 10, true⟩) = some SamplerRef.rms ∧
    List.lookup 4 (get_sampler ⟨1, 10, true⟩) = some SamplerRef.location ∧
    ((List.lookup 0 (get_sampler ⟨1, 10, true⟩) = some SamplerRef.nsources) ↔
      (10 : Nat) ≠ 1) ∧
    (∀ k ∈ (get_sampler ⟨1, 10, true⟩).map Prod.fst, k ≠ 0 → 0 < k) ∧
    ((List.lookup 5 (get_sampler ⟨1, 10, true⟩) = some SamplerRef.micNoise) ↔
      true = true) :=
  get_sampler_slots ⟨1, 10, true⟩

/-- The dataset modes of `DatasetMIRACLEConfig` ("analytic", "welch",
"wishart"). -/
inductive Mode
  | analytic
  | welch
  | wishart
deriving DecidableEq

/-- The feature functions a `MIRACLEFeatureCollectionBuilder` can add to
the collection in `DatasetMIRACLE.get_feature_collection`. -/
inductive FeatureTag
  | prepare
  | seeds
  | idx
  | time_data
  | spectrogram
  | csm
  | csmtriu
  | eigmode
  | sourcemap
  | loc
  | source_strength_analytic
  | source_strength_estimated
  | noise_strength_analytic
  | noise_strength_estimated
  | f
  | num
deriving DecidableEq

/-- The entries `get_feature_collection` always adds before looking at the
requested feature names: the prepare function, `seeds` and `idx`. -/
def baseFeatures : List FeatureTag :=
  [FeatureTag.prepare, FeatureTag.seeds, FeatureTag.idx]

/-- Embedding of `DatasetMIRACLE.get_feature_collection`
(`src/acoupipe/datasets/experimental.py`, lines 232-302), embedded as the
list of feature functions added to the collection, in the order the source
adds them.  The `time_data` branch either returns the builder early (mode
"welch") or raises a `ValueError`; the `spectrogram` branch raises for
non-"welch" modes; every other requested name appends its feature. -/
def get_feature_collection (mode : Mode) (features : List String) :
    Except String (List FeatureTag) :=
  let acc := baseFeatures
  if features.contains ("time_data") then
    if mode = Mode.welch then
      Except.ok (acc ++ [FeatureTag.time_data])
    else
      Except.error "time_data feature is not possible with modes [analytic, wishart]."
  else if features.contains ("spectrogram") ∧ mode ≠ Mode.welch then
    Except.error "spectrogram feature is not possible with modes [analytic, wishart]."
  else
    let acc := if features.contains ("spectrogram") then acc ++ [FeatureTag.spectrogram] else acc
    let acc := if features.contains ("csm") then acc ++ [FeatureTag.csm] else acc
    let acc := if features.contains ("csmtriu") then acc ++ [FeatureTag.csmtriu] else acc
    let acc := if features.contains ("eigmode") then acc ++ [FeatureTag.eigmode] else acc
    let acc := if features.contains ("sourcemap") then acc ++ [FeatureTag.sourcemap] else acc
    let acc := if features.contains ("loc") then acc ++ [FeatureTag.loc] else acc
    let acc :=
      if features.contains ("source_strength_analytic") then
        acc ++ [FeatureTag.source_strength_analytic]
      else acc
    let acc :=
      if features.contains ("source_strength_estimated") then
        acc ++ [FeatureTag.source_strength_estimated]
      else acc
    let acc :=
      if features.contains ("noise_strength_analytic") then
        acc ++ [FeatureTag.noise_strength_analytic]
      else acc
    let acc :=
      if features.contains ("noise_strength_estimated") then
        acc ++ [FeatureTag.noise_strength_estimated]
      else acc
    let acc := if features.contains ("f") then acc ++ [FeatureTag.f] else acc
    let acc := if features.contains ("num") then acc ++ [FeatureTag.num] else acc
    Except.ok acc

/-- C10: for every feature list containing `"time_data"`: if the mode is
not "welch", `get_feature_collection` raises a ValueError; if the mode is
"welch", the returned collection is built from `time_data` alone (on top of
the always-present prepare/seeds/idx entries) and every other requested
feature name is silently ignored because the builder returns early. -/
theorem get_feature_collection_time_data (mode : Mode) (features : List String)
    (h : features.contains ("time_data") = true) :
    (mode ≠ Mode.welch →
      get_feature_collection mode features =
        Except.error "time_data feature is not possible with modes [analytic, wishart].") ∧
    (mode = Mode.welch →
      get_feature_collection mode features =
        Except.ok (baseFeatures ++ [FeatureTag.time_data]) ∧
      ∀ t ∈ [FeatureTag.csm, FeatureTag.csmtriu, FeatureTag.eigmode,
          FeatureTag.sourcemap, FeatureTag.loc, FeatureTag.spectrogram,
          FeatureTag.source_strength_analytic, FeatureTag.source_strength_estimated,
          FeatureTag.noise_strength_analytic, FeatureTag.noise_strength_estimated,
          FeatureTag.f, FeatureTag.num],
        t ∉ baseFeatures ++ [FeatureTag.time_data]) := by
  have hc : "time_data" ∈ features := by simpa using h
  constructor
  · intro hm
    cases mode <;> simp_all [get_feature_collection, hc]
  · intro hm
    subst hm
    refine ⟨by simp [get_feature_collection, hc], by decide⟩

/-- Witness for C10 at mode "welch" and the feature list
`["time_data", "csm", "sourcemap"]`. -/
theorem get_feature_collection_time_data_witness :
    (Mode.welch ≠ Mode.welch →
      get_feature_collection Mode.welch ["time_data", "csm", "sourcemap"] =
        Except.error "time_data feature is not possible with modes [analytic, wishart].") ∧
    (Mode.welch = Mode.welch →
      get_feature_collection Mode.welch ["time_data", "csm", "sourcemap"] =
        Except.ok (baseFeatures ++ [FeatureTag.time_data]) ∧
      ∀ t ∈ [FeatureTag.csm, FeatureTag.csmtriu, FeatureTag.eigmode,
          FeatureTag.sourcemap, FeatureTag.loc, FeatureTag.spectrogram,
          FeatureTag.source_strength_analytic, FeatureTag.source_strength_estimated,
          FeatureTag.noise_strength_analytic, FeatureTag.noise_strength_estimated,
          FeatureTag.f, FeatureTag.num],
        t ∉ baseFeatures ++ [FeatureTag.time_data]) :=
  get_feature_collection_time_data Mode.welch ["time_data", "csm", "sourcemap"] (by rfl)

/-- Configuration-time (setup) errors of the sampler layer. -/
inductive ConfigError
  | subsetCountExceedsCandidates
deriving DecidableEq

/-- Per-run sampling errors. -/
inductive SamplingError
  | boundsExhausted
deriving DecidableEq

/-- Modelled from the spec: the Subset sampler (`SourceSetSampler` with
`replace=False`, a class imported from `acoupipe` but absent from the
snapshot).  It holds a fixed candidate set and a `count` of elements to
select without replacement. -/
structure SubsetSampler (α : Type) where
  set : List α
  count : Nat

/-- Modelled from the spec: setup of a Subset sampler.  Requesting more
elements than the candidate set holds is a fatal configuration error
detected at setup, before any draw. -/
def mkSubsetSampler {α : Type} (set : List α) (count : Nat) :
    Except ConfigError (SubsetSampler α) :=
  if count ≤ set.length then Except.ok ⟨set, count⟩
  else Except.error ConfigError.subsetCountExceedsCandidates

/-- Modelled from the spec: draw `k` elements without replacement.  Each
step selects one element of the remaining pool (position = next rng output
reduced modulo the pool size; the head of the pool is the `getD` fallback
and is never used, the index being in range) and removes the selected
element from the pool. -/
def drawWithoutReplacement {α : Type} [DecidableEq α] (rng : Nat → Nat) :
    Nat → List α → List α
  | 0, _ => []
  | _ + 1, [] => []
  | k + 1, a :: t =>
    let x := (a :: t).getD (rng (k + 1) % (a :: t).length) a
    x :: drawWithoutReplacement rng k ((a :: t).erase x)

/-- Modelled from the spec: `sample` of a Subset sampler assigns the drawn
selection as the active member collection of its target. -/
def SubsetSampler.sample {α : Type} [DecidableEq α] (s : SubsetSampler α)
    (rng : Nat → Nat) : List α :=
  drawWithoutReplacement rng s.count s.set

theorem getD_mem_of_head {α : Type} (a : α) (t : List α) (n : Nat) :
    (a :: t).getD n a ∈ a :: t := by
  rcases Nat.lt_or_ge n (a :: t).length with h | h
  · rw [List.getD_eq_getElem _ _ h]
    exact List.getElem_mem h
  · rw [List.getD_eq_default _ _ h]
    exact List.mem_cons_self a t

theorem drawWithoutReplacement_subset {α : Type} [DecidableEq α] (rng : Nat → Nat) :
    ∀ (k : Nat) (pool : List α), drawWithoutReplacement rng k pool ⊆ pool
  | 0, _ => by simp [drawWithoutReplacement]
  | _ + 1, [] => by simp [drawWithoutReplacement]
  | k + 1, a :: t => by
    rw [drawWithoutReplacement]
    intro y hy
    rcases List.mem_cons.mp hy with h | h
    · exact h ▸ getD_mem_of_head a t _
    · exact (List.erase_sublist _ _).subset (drawWithoutReplacement_subset rng k _ h)

theorem drawWithoutReplacement_nodup {α : Type} [DecidableEq α] (rng : Nat → Nat) :
    ∀ (k : Nat) (pool : List α), pool.Nodup → (drawWithoutReplacement rng k pool).Nodup
  | 0, _, _ => by simp [drawWithoutReplacement]
  | _ + 1, [], _ => by simp [drawWithoutReplacement]
  | k + 1, a :: t, hnd => by
    rw [drawWithoutReplacement]
    refine List.nodup_cons.mpr ⟨fun hmem => ?_, ?_⟩
    · have hsub := drawWithoutReplacement_subset rng k ((a :: t).erase _) hmem
      exact hnd.not_mem_erase hsub
    · exact drawWithoutReplacement_nodup rng k _ (hnd.erase _)

theorem drawWithoutReplacement_length {α : Type} [DecidableEq α] (rng : Nat → Nat) :
    ∀ (k : Nat) (pool : List α), k ≤ pool.length →
      (drawWithoutReplacement rng k pool).length = k
  | 0, _, _ => by simp [drawWithoutReplacement]
  | _ + 1, [], h => by simp at h
  | k + 1, a :: t, h => by
    rw [drawWithoutReplacement, List.length_cons,
      drawWithoutReplacement_length rng k _ ?_]
    have hlen := List.length_erase_add_one
      (getD_mem_of_head a t (rng (k + 1) % (a :: t).length))
    simp only [List.length_cons] at hlen h ⊢
    omega

/-- C4: a Subset sampler configured with `count = k` over a candidate set
of `m` pairwise-distinct candidates: when `k ≤ m`, setup succeeds and every
selection produced by `sample` consists of exactly `k` pairwise-distinct
elements of the candidate set (no duplicates, for every rng); when `k > m`,
the configuration is rejected with a fatal error at setup time, before any
draw. -/
theorem subset_sampler_no_replacement {α : Type} [DecidableEq α]
    (set : List α) (k : Nat) (hnd : set.Nodup) :
    (k ≤ set.length →
      ∃ s : SubsetSampler α, mkSubsetSampler set k = Except.ok s ∧
        ∀ rng : Nat → Nat,
          (s.sample rng).length = k ∧
          (s.sample rng).Nodup ∧
          s.sample rng ⊆ set) ∧
    (set.length < k →
      mkSubsetSampler set k = Except.error ConfigError.subsetCountExceedsCandidates) := by
  constructor
  · intro hk
    refine ⟨⟨set, k⟩, by simp [mkSubsetSampler, hk], fun rng => ?_⟩
    exact ⟨drawWithoutReplacement_length rng k set hk,
      drawWithoutReplacement_nodup rng k set hnd,
      drawWithoutReplacement_subset rng k set⟩
  · intro hk
    simp [mkSubsetSampler, Nat.not_le.mpr hk]

/-- Witness for C4: candidates `[10, 20, 30, 40, 50]` (5 candidates, as in
the concrete scenario of the spec), `count = 3`. -/
theorem subset_sampler_no_replacement_witness :
    ((3 : Nat) ≤ ([10, 20, 30, 40, 50] : List Nat).length →
      ∃ s : SubsetSampler Nat, mkSubsetSampler [10, 20, 30, 40, 50] 3 = Except.ok s ∧
        ∀ rng : Nat → Nat,
          (s.sample rng).length = 3 ∧
          (s.sample rng).Nodup ∧
          s.sample rng ⊆ [10, 20, 30, 40, 50]) ∧
    (([10, 20, 30, 40, 50] : List Nat).length < 3 →
      mkSubsetSampler [10, 20, 30, 40, 50] 3 =
        Except.error ConfigError.subsetCountExceedsCandidates) :=
  subset_sampler_no_replacement [10, 20, 30, 40, 50] 3 (by decide)

/-- A sampled planar source position (the `PointSourceSampler` of
`dataset/main.py` restricts the draw to the x and y dimensions via its
direction mask `ldir`). -/
structure Point2 where
  x : ℚ
  y : ℚ
deriving DecidableEq

/-- Modelled from the spec: the bounded Attribute sampler
(`PointSourceSampler`, a class imported from `acoupipe` but absent from the
snapshot), configured as in `dataset/main.py` with an `x_bounds` and a
`y_bounds` interval. -/
structure BoundedPointSampler where
  x_bounds : ℚ × ℚ
  y_bounds : ℚ × ℚ

/-- A candidate draw satisfies all configured bounds. -/
def BoundedPointSampler.inBounds (s : BoundedPointSampler) (p : Point2) : Prop :=
  s.x_bounds.1 ≤ p.x ∧ p.x ≤ s.x_bounds.2 ∧ s.y_bounds.1 ≤ p.y ∧ p.y ≤ s.y_bounds.2

instance (s : BoundedPointSampler) (p : Point2) : Decidable (s.inBounds p) := by
  unfold BoundedPointSampler.inBounds
  infer_instance

/-- Modelled from the spec: `sample` of a bounded Attribute sampler —
reject-and-redraw until the drawn value satisfies all bounds or the retry
budget is exhausted; exhaustion is a fatal `BoundsExhaustedError`, never
silent clipping.  `draws` is the stream of raw values the reseeded private
generator produces. -/
def BoundedPointSampler.sample (s : BoundedPointSampler) (draws : Nat → Point2) :
    Nat → Except SamplingError Point2
  | 0 => Except.error SamplingError.boundsExhausted
  | budget + 1 =>
    let p := draws budget
    if s.inBounds p then Except.ok p
    else s.sample draws budget

theorem sample_ok_mem_bounds (s : BoundedPointSampler) (draws : Nat → Point2) :
    ∀ (budget : Nat) (p : Point2), s.sample draws budget = Except.ok p → s.inBounds p
  | 0, p => by simp [BoundedPointSampler.sample]
  | budget + 1, p => by
    rw [BoundedPointSampler.sample]
    by_cases h : s.inBounds (draws budget)
    · intro hp
      simp only [h, if_pos] at hp
      cases hp
      exact h
    · intro hp
      simp only [h, if_neg, not_false_iff] at hp
      exact sample_ok_mem_bounds s draws budget p hp

theorem sample_unsat_exhausts (s : BoundedPointSampler) (draws : Nat → Point2)
    (hbad : s.x_bounds.2 < s.x_bounds.1) :
    ∀ budget : Nat, s.sample draws budget = Except.error SamplingError.boundsExhausted
  | 0 => by simp [BoundedPointSampler.sample]
  | budget + 1 => by
    rw [BoundedPointSampler.sample]
    have h : ¬ s.inBounds (draws budget) := by
      rintro ⟨h1, h2, -, -⟩
      exact absurd (le_trans h1 h2) (not_le.mpr hbad)
    simp only [h, if_neg, not_false_iff]
    exact sample_unsat_exhausts s draws hbad budget

/-- C5: for every bounded Attribute sampler, every draw stream and every
retry budget — (a) every value `sample` returns (and hence writes into a
target) lies within every configured bound: no out-of-bounds or clipped
value is ever assigned; (b) if the bounds are unsatisfiable (lower bound
above upper bound on the x dimension), the sampler exhausts its bounded
retry budget and fails with `BoundsExhaustedError` instead of returning a
value. -/
theorem bounded_sampler_bounds (s : BoundedPointSampler) (draws : Nat → Point2)
    (budget : Nat) :
    (∀ p : Point2, s.sample draws budget = Except.ok p → s.inBounds p) ∧
    (s.x_bounds.2 < s.x_bounds.1 →
      s.sample draws budget = Except.error SamplingError.boundsExhausted) :=
  ⟨fun p => sample_ok_mem_bounds s draws budget p,
   fun hbad => sample_unsat_exhausts s draws hbad budget⟩

/-- Witness for C5: the bounds `x, y ∈ [-1/2, 1/2]` of `dataset/main.py`
with a constant in-bounds draw stream (part a), and the unsatisfiable
bounds `x ∈ [1/2, -1/2]` (part b), both at concrete budgets. -/
theorem bounded_sampler_bounds_witness :
    BoundedPointSampler.inBounds ⟨(-(1/2 : ℚ), 1/2), (-(1/2 : ℚ), 1/2)⟩ ⟨1/4, 1/3⟩ ∧
    BoundedPointSampler.sample ⟨((1/2 : ℚ), -(1/2)), (-(1/2 : ℚ), 1/2)⟩
        (fun _ => ⟨0, 0⟩) 4 =
      Except.error SamplingError.boundsExhausted := by
  constructor
  · refine (bounded_sampler_bounds ⟨(-(1/2 : ℚ), 1/2), (-(1/2 : ℚ), 1/2)⟩
      (fun _ => ⟨1/4, 1/3⟩) 3).1 ⟨1/4, 1/3⟩ ?_
    simp only [BoundedPointSampler.sample]
    rw [if_pos (by norm_num [BoundedPointSampler.inBounds])]
  · exact (bounded_sampler_bounds ⟨((1/2 : ℚ), -(1/2)), (-(1/2 : ℚ), 1/2)⟩
      (fun _ => ⟨0, 0⟩) 4).2 (by norm_num)

/-- Embedding of `np.sort(...)` followed by `[::-1]` in `sample_rms`
(`dataset/main.py`, line 117): sort ascending, then reverse, i.e. sort in
descending order. -/
def sortDesc {α : Type} [LinearOrder α] (l : List α) : List α :=
  (List.insertionSort (· ≤ ·) l).reverse

/-- Embedding of `np.ndarray.max()` of a numeric array, with a default for the empty
array (on which numpy raises). -/
def npMax {α : Type} [LinearOrder α] (d : α) : List α → α
  | [] => d
  | a :: t => t.foldl max a

/-- Embedding of `sample_rms` from `dataset/main.py` (lines 114-120): draw the squared
source pressures (`draws` is the stream `rng.rayleigh(5, nsrc)` of the
sources' draws), sort them descending, take the square root, normalize by
the maximum; the i-th entry of the result is assigned to
`sources_mix.sources[i].signal.rms`.  The square-root function is a
parameter so that the definition stays executable; the theorems instantiate
it with `Real.sqrt`. -/
def sample_rms {α : Type} [LinearOrderedField α] (sqrt : α → α) (draws : List α) :
    List α :=
  let p_rms := (sortDesc draws).map sqrt
  let m := npMax 0 p_rms
  p_rms.map (· / m)

theorem sortDesc_perm {α : Type} [LinearOrder α] (l : List α) :
    List.Perm (sortDesc l) l :=
  (List.reverse_perm _).trans (List.perm_insertionSort _ l)

theorem sortDesc_sorted {α : Type} [LinearOrder α] (l : List α) :
    (sortDesc l).Sorted (· ≥ ·) := by
  unfold sortDesc
  rw [List.Sorted, List.pairwise_reverse]
  exact (List.sorted_insertionSort (· ≤ ·) l).imp fun h => h

theorem foldl_max_of_le {α : Type} [LinearOrder α] :
    ∀ (t : List α) (a : α), (∀ x ∈ t, x ≤ a) → t.foldl max a = a
  | [], _, _ => rfl
  | b :: t, a, h => by
    rw [List.foldl_cons, max_eq_left (h b (List.mem_cons_self b t))]
    exact foldl_max_of_le t a fun x hx => h x (List.mem_cons_of_mem b hx)

theorem sample_rms_eq {α : Type} [LinearOrderedField α] (sqrt : α → α)
    (draws : List α) :
    sample_rms sqrt draws =
      ((sortDesc draws).map sqrt).map (· / npMax 0 ((sortDesc draws).map sqrt)) :=
  rfl

/-- C8: for every draw stream and every non-empty source list of length
`n` (the `draws` list holds the `n` Rayleigh draws, one per source, all
positive as Rayleigh draws are), `sample_rms` assigns exactly one rms value
to each of the `n` sources, the assigned values are in descending
(non-increasing) order over the source indices, the largest assigned value
equals 1, and every assigned value lies in `(0, 1]`. -/
theorem sample_rms_spec (draws : List ℝ) (hne : draws ≠ [])
    (hpos : ∀ x ∈ draws, 0 < x) :
    (sample_rms Real.sqrt draws).length = draws.length ∧
    (sample_rms Real.sqrt draws).Sorted (· ≥ ·) ∧
    npMax 0 (sample_rms Real.sqrt draws) = 1 ∧
    ∀ v ∈ sample_rms Real.sqrt draws, 0 < v ∧ v ≤ 1 := by
  have hperm := sortDesc_perm draws
  have hsorted := sortDesc_sorted draws
  have hposs : ∀ x ∈ sortDesc draws, 0 < x := fun x hx => hpos x (hperm.subset hx)
  have hlen : (sortDesc draws).length = draws.length := hperm.length_eq
  obtain ⟨a, t, hs⟩ : ∃ a t, sortDesc draws = a :: t := by
    cases hcase : sortDesc draws with
    | nil =>
      rw [hcase] at hlen
      exact absurd (List.length_eq_zero.mp hlen.symm) hne
    | cons a t => exact ⟨a, t, rfl⟩
  rw [hs] at hsorted hposs hlen
  have hta : ∀ b ∈ t, b ≤ a := List.rel_of_sorted_cons hsorted
  have ha_pos : (0 : ℝ) < a := hposs a (List.mem_cons_self a t)
  have hsqa_pos : 0 < Real.sqrt a := Real.sqrt_pos.mpr ha_pos
  have hz_le : ∀ z ∈ (a :: t).map Real.sqrt, z ≤ Real.sqrt a := by
    intro z hz
    obtain ⟨x, hx, rfl⟩ := List.mem_map.mp hz
    rcases List.mem_cons.mp hx with rfl | hx
    · exact le_refl _
    · exact Real.sqrt_le_sqrt (hta x hx)
  have hz_pos : ∀ z ∈ (a :: t).map Real.sqrt, 0 < z := by
    intro z hz
    obtain ⟨x, hx, rfl⟩ := List.mem_map.mp hz
    exact Real.sqrt_pos.mpr (hposs x hx)
  have hm : npMax 0 ((a :: t).map Real.sqrt) = Real.sqrt a := by
    simp only [List.map_cons, npMax]
    exact foldl_max_of_le _ _ fun z hz =>
      hz_le z (List.mem_cons_of_mem _ hz)
  rw [sample_rms_eq, hs, hm]
  refine ⟨?_, ?_, ?_, ?_⟩
  · simp only [List.length_map]
    simpa using hlen
  · refine List.Pairwise.map _ (fun x y (h : x ≥ y) => ?_)
      (hsorted.map _ fun x y (h : x ≥ y) => (Real.sqrt_le_sqrt h : _))
    exact div_le_div_of_nonneg_right h hsqa_pos.le
  · simp only [List.map_cons, npMax, div_self hsqa_pos.ne']
    refine foldl_max_of_le _ _ fun z hz => ?_
    obtain ⟨y, hy, rfl⟩ := List.mem_map.mp hz
    exact (div_le_one hsqa_pos).mpr
      (hz_le y (List.mem_cons_of_mem _ hy))
  · intro v hv
    obtain ⟨z, hz, rfl⟩ := List.mem_map.mp hv
    exact ⟨div_pos (hz_pos z hz) hsqa_pos, (div_le_one hsqa_pos).mpr (hz_le z hz)⟩

/-- Witness for C8 at the draw list `[9, 4]` (two sources). -/
theorem sample_rms_spec_witness :
    (sample_rms Real.sqrt [(9 : ℝ), 4]).length = ([(9 : ℝ), 4] : List ℝ).length ∧
    (sample_rms Real.sqrt [(9 : ℝ), 4]).Sorted (· ≥ ·) ∧
    npMax 0 (sample_rms Real.sqrt [(9 : ℝ), 4]) = 1 ∧
    ∀ v ∈ sample_rms Real.sqrt [(9 : ℝ), 4], 0 < v ∧ v ≤ 1 :=
  sample_rms_spec [(9 : ℝ), 4] (by simp) (by norm_num)

/-- Modelled from the spec: a FeatureRecord emitted by the pipeline — a
mapping from feature name to value that always includes the reserved `idx`
(current sample index) and `seeds` (ordered seed list) entries, modelled as
dedicated fields, next to the user-registered features. -/
structure FeatureRecord (V : Type) where
  idx : Nat
  seeds : List Nat
  features : List (String × V)
deriving DecidableEq

/-- Modelled from the spec: the draw→extract step of the pipeline
(`BasePipeline`/`DistributedPipeline`, imported from `acoupipe` but absent
from the snapshot) for one sample index.  `applySamplers` is the combined
seed-driven mutation of the simulation backend by the ordered sampler
list; `feats` the user-registered feature functions, evaluated against the
mutated backend; `idx` and `seeds` are filled in by the pipeline itself. -/
def computeRecord {S V : Type} (applySamplers : List Nat → S → S)
    (feats : List (String × (S → V))) (split : Split) (idx : Nat) (s : S) :
    FeatureRecord V :=
  let seeds := seedsForSample split idx
  let mutated := applySamplers seeds s
  ⟨idx, seeds, feats.map fun nf => (nf.1, nf.2 mutated)⟩

/-- Modelled from the spec: sequential mode over an explicit list of
sample indices, threading the one shared backend instance from sample to
sample. -/
def seqRunAux {S V : Type} (applySamplers : List Nat → S → S)
    (feats : List (String × (S → V))) (split : Split) :
    List Nat → S → List (FeatureRecord V)
  | [], _ => []
  | idx :: rest, s =>
    computeRecord applySamplers feats split idx s ::
      seqRunAux applySamplers feats split rest
        (applySamplers (seedsForSample split idx) s)

/-- Modelled from the spec (`BasePipeline`, sequential mode): iterate
`idx = 0 … numsamples-1` on the single shared backend instance, emitting
records in idx order. -/
def seqRun {S V : Type} (applySamplers : List Nat → S → S)
    (feats : List (String × (S → V))) (split : Split) (n : Nat) (s0 : S) :
    List (FeatureRecord V) :=
  seqRunAux applySamplers feats split (List.range n) s0

/-- Modelled from the spec (`DistributedPipeline`): one task per idx, each
worker holding its own private clone of the initial backend state; results
stream back in an arbitrary arrival order, modelled by the list `arrival`
of indices. -/
def distRun {S V : Type} (applySamplers : List Nat → S → S)
    (feats : List (String × (S → V))) (split : Split) (arrival : List Nat)
    (s0 : S) : List (FeatureRecord V) :=
  arrival.map fun idx => computeRecord applySamplers feats split idx s0

/-- Ordering of records by their `idx` field. -/
def recordLE {V : Type} (a b : FeatureRecord V) : Prop :=
  a.idx ≤ b.idx

/-- Strict ordering of records by their `idx` field. -/
def recordLT {V : Type} (a b : FeatureRecord V) : Prop :=
  a.idx < b.idx

instance {V : Type} : DecidableRel (@recordLE V) :=
  fun a b => Nat.decLe a.idx b.idx

instance {V : Type} : IsTotal (FeatureRecord V) recordLE :=
  ⟨fun a b => Nat.le_total a.idx b.idx⟩

instance {V : Type} : IsTrans (FeatureRecord V) recordLE :=
  ⟨fun _ _ _ => Nat.le_trans⟩

instance {V : Type} : IsAntisymm (FeatureRecord V) recordLT :=
  ⟨fun a b h1 h2 => absurd h2 (Nat.lt_asymm h1)⟩

/-- The consumer-side reorder buffer: sort arriving records by their `idx`
field. -/
def sortByIdx {V : Type} (l : List (FeatureRecord V)) : List (FeatureRecord V) :=
  List.insertionSort recordLE l

/-- Under the spec's backend invariant — the backend's current state is
fully determined by the most recent sampler applications — the sequential
run equals the per-index stateless computation from any fixed initial
backend. -/
theorem seqRunAux_eq_map {S V : Type} (applySamplers : List Nat → S → S)
    (feats : List (String × (S → V))) (split : Split)
    (hindep : ∀ (seeds : List Nat) (s s' : S),
      applySamplers seeds s = applySamplers seeds s') :
    ∀ (idxs : List Nat) (s s0 : S),
      seqRunAux applySamplers feats split idxs s =
        idxs.map fun idx => computeRecord applySamplers feats split idx s0
  | [], _, _ => rfl
  | idx :: rest, s, s0 => by
    rw [seqRunAux, List.map_cons]
    congr 1
    · simp only [computeRecord]
      rw [hindep (seedsForSample split idx) s s0]
    · exact seqRunAux_eq_map applySamplers feats split hindep rest _ s0

/-- C1: mode equivalence — for every configuration, running the pipeline
sequentially and running it distributed (any worker count and any arrival
order of completed tasks, modelled by an arbitrary permutation `arrival`
of the submitted indices), with the same split, base seed schedule and
number of samples, produce — after reordering records by their `idx`
field — identical lists of FeatureRecords.  The hypothesis `hindep` is the
spec's backend invariant: the backend state read by the features is fully
determined by the most recent sampler applications, so the per-worker
private clones and the shared sequential backend yield the same records. -/
theorem mode_equivalence {S V : Type} (applySamplers : List Nat → S → S)
    (feats : List (String × (S → V))) (split : Split) (n : Nat) (s0 : S)
    (arrival : List Nat)
    (hindep : ∀ (seeds : List Nat) (s s' : S),
      applySamplers seeds s = applySamplers seeds s')
    (harrival : List.Perm arrival (List.range n)) :
    sortByIdx (distRun applySamplers feats split arrival s0) =
      seqRun applySamplers feats split n s0 := by
  have hseq : seqRun applySamplers feats split n s0 =
      (List.range n).map
        (fun idx => computeRecord applySamplers feats split idx s0) :=
    seqRunAux_eq_map applySamplers feats split hindep (List.range n) s0 s0
  have hperm : List.Perm (sortByIdx (distRun applySamplers feats split arrival s0))
      ((List.range n).map
        (fun idx => computeRecord applySamplers feats split idx s0)) :=
    (List.perm_insertionSort recordLE _).trans
      (harrival.map fun idx => computeRecord applySamplers feats split idx s0)
  have hidx : ((List.range n).map
      (fun idx => computeRecord applySamplers feats split idx s0)).map
        (fun r => r.idx) = List.range n := by
    rw [List.map_map]
    exact List.map_id (List.range n)
  have hsortedLE : List.Sorted recordLE
      (sortByIdx (distRun applySamplers feats split arrival s0)) :=
    List.sorted_insertionSort recordLE _
  have hkeysnodup : ((sortByIdx (distRun applySamplers feats split arrival s0)).map
      (fun r => r.idx)).Nodup := by
    rw [List.Perm.nodup_iff (List.Perm.map (fun r => r.idx) hperm), hidx]
    exact List.nodup_range n
  have hsortedLT : List.Pairwise recordLT
      (sortByIdx (distRun applySamplers feats split arrival s0)) := by
    have hne : List.Pairwise (fun a b : FeatureRecord V => a.idx ≠ b.idx)
        (sortByIdx (distRun applySamplers feats split arrival s0)) :=
      (List.pairwise_map).mp hkeysnodup
    exact (hsortedLE.and hne).imp fun h => Nat.lt_of_le_of_ne h.1 h.2
  have hsortedLT' : List.Pairwise recordLT
      ((List.range n).map
        (fun idx => computeRecord applySamplers feats split idx s0)) := by
    rw [List.pairwise_map]
    exact List.pairwise_lt_range n
  rw [hseq]
  exact List.eq_of_perm_of_sorted hperm hsortedLT hsortedLT'

/-- Witness for C1: a numeric backend (`S = Nat`, the state the samplers
produce is the sum of their seeds), one feature reading the state,
`n = 3` samples, arrival order `[2, 0, 1]`. -/
theorem mode_equivalence_witness :
    sortByIdx (distRun (fun seeds _ => seeds.foldl (· + ·) 0)
        [("total", fun s => s)] Split.training [2, 0, 1] 0) =
      seqRun (fun seeds _ => seeds.foldl (· + ·) 0)
        [("total", fun s => s)] Split.training 3 0 :=
  mode_equivalence (fun seeds _ => seeds.foldl (· + ·) 0)
    [("total", fun s => s)] Split.training 3 0 [2, 0, 1]
    (fun _ _ _ => rfl) (by decide)

theorem seqRunAux_idx_seeds {S V : Type} (applySamplers : List Nat → S → S)
    (feats : List (String × (S → V))) (split : Split) :
    ∀ (idxs : List Nat) (s : S),
      (seqRunAux applySamplers feats split idxs s).map (fun r => (r.idx, r.seeds)) =
        idxs.map fun i => (i, seedsForSample split i)
  | [], _ => rfl
  | _ :: rest, s => by
    rw [seqRunAux, List.map_cons, List.map_cons,
      seqRunAux_idx_seeds applySamplers feats split rest _]
    rfl

/-- C6: every FeatureRecord emitted by the pipeline carries an `idx` entry
(the current sample index: the emitted records' `(idx, seeds)` pairs are
exactly `(0, seeds(0)), …, (n-1, seeds(n-1))` in order) and a `seeds`
entry holding the ordered seed list for that sample, one integer seed per
sampler; both are populated by the pipeline itself — the right-hand sides
do not depend on the user-registered feature functions `feats`, which only
ever produce the `features` entries. -/
theorem pipeline_populates_idx_seeds {S V : Type}
    (applySamplers : List Nat → S → S) (feats : List (String × (S → V)))
    (split : Split) (n : Nat) (s0 : S) :
    (seqRun applySamplers feats split n s0).map (fun r => (r.idx, r.seeds)) =
      (List.range n).map (fun i => (i, seedsForSample split i)) ∧
    ∀ r ∈ seqRun applySamplers feats split n s0,
      r.seeds = seedsForSample split r.idx ∧ r.seeds.length = numSlots := by
  have hmap := seqRunAux_idx_seeds applySamplers feats split (List.range n) s0
  refine ⟨hmap, fun r hr => ?_⟩
  have hmem : (r.idx, r.seeds) ∈
      (List.range n).map fun i => (i, seedsForSample split i) := by
    rw [← hmap]
    exact List.mem_map_of_mem (fun r => (r.idx, r.seeds)) hr
  obtain ⟨i, _, heq⟩ := List.mem_map.mp hmem
  obtain ⟨h1, h2⟩ := Prod.mk.injEq _ _ _ _ ▸ heq
  have hseeds : r.seeds = seedsForSample split r.idx := by
    rw [← h1, ← h2]
  refine ⟨hseeds, ?_⟩
  rw [hseeds]
  simp [seedsForSample, numSlots]

/-- Witness for C6: the numeric backend of the C1 witness, `n = 2`,
training split. -/
theorem pipeline_populates_idx_seeds_witness :
    (seqRun (fun seeds _ => seeds.foldl (· + ·) 0) [("total", fun s => s)]
        Split.training 2 0).map (fun r => (r.idx, r.seeds)) =
      (List.range 2).map (fun i => (i, seedsForSample Split.training i)) ∧
    ∀ r ∈ seqRun (fun seeds _ => seeds.foldl (· + ·) 0) [("total", fun s => s)]
        Split.training 2 0,
      r.seeds = seedsForSample Split.training r.idx ∧ r.seeds.length = numSlots :=
  pipeline_populates_idx_seeds (fun seeds _ => seeds.foldl (· + ·) 0)
    [("total", fun s => s)] Split.training 2 0

/-- Modelled from the spec: one cacheable feature — a pure compute
function `f` from the fingerprint (the subset of sampled parameters the
feature depends on) to the feature value, together with a cache store
mapping fingerprints to previously stored values.  A lookup returns the
stored value on a hit; on a miss it computes, stores and returns. -/
def lookupOrCompute {K V : Type} [DecidableEq K] (f : K → V)
    (cache : K → Option V) (k : K) : V × (K → Option V) :=
  match cache k with
  | some v => (v, cache)
  | none => (f k, fun q => if q = k then some (f k) else cache q)

/-- A cache store is valid for `f` when every stored value is the computed
value of its fingerprint (which is how every entry is produced, values
being deterministic functions of the fingerprint). -/
def ValidCache {K V : Type} (f : K → V) (cache : K → Option V) : Prop :=
  ∀ k v, cache k = some v → v = f k

/-- Modelled from the spec: evaluating the cacheable feature over the
samples of a fixed run with the cache enabled, threading the cache store
(hits and misses both occur, depending on the store's content). -/
def runCached {K V : Type} [DecidableEq K] (f : K → V)
    (cache : K → Option V) : List K → List V
  | [] => []
  | k :: ks =>
    (lookupOrCompute f cache k).1 :: runCached f (lookupOrCompute f cache k).2 ks

/-- Evaluating the feature over the same run with the cache disabled:
always recompute. -/
def runUncached {K V : Type} (f : K → V) (keys : List K) : List V :=
  keys.map f

theorem lookupOrCompute_value {K V : Type} [DecidableEq K] (f : K → V)
    (cache : K → Option V) (hvalid : ValidCache f cache) (k : K) :
    (lookupOrCompute f cache k).1 = f k := by
  unfold lookupOrCompute
  cases hk : cache k with
  | none => rfl
  | some v => exact hvalid k v hk

theorem lookupOrCompute_valid {K V : Type} [DecidableEq K] (f : K → V)
    (cache : K → Option V) (hvalid : ValidCache f cache) (k : K) :
    ValidCache f (lookupOrCompute f cache k).2 := by
  unfold lookupOrCompute
  cases hk : cache k with
  | none =>
    intro q v hq
    simp only at hq
    by_cases hqk : q = k
    · rw [if_pos hqk] at hq
      cases hq
      rw [hqk]
    · rw [if_neg hqk] at hq
      exact hvalid q v hq
  | some v => exact hvalid

/-- C7: cache transparency — for every cacheable feature and every sample
of a fixed run, the value returned with the cache enabled (starting from
any valid cache store, so both hits and misses are covered) equals the
value returned with the cache disabled: the cache never changes the
returned values. -/
theorem cache_transparency {K V : Type} [DecidableEq K] (f : K → V)
    (cache : K → Option V) (keys : List K) (hvalid : ValidCache f cache) :
    runCached f cache keys = runUncached f keys := by
  induction keys generalizing cache with
  | nil => rfl
  | cons k ks ih =>
    rw [runCached, runUncached, List.map_cons,
      lookupOrCompute_value f cache hvalid k,
      ih _ (lookupOrCompute_valid f cache hvalid k)]
    rfl

/-- Witness for C7: the squaring feature over the run `[1, 2, 1, 3]`
starting from the empty cache (the second occurrence of `1` is a cache
hit). -/
theorem cache_transparency_witness :
    runCached (fun n : Nat => n * n) (fun _ => none) [1, 2, 1, 3] =
      runUncached (fun n : Nat => n * n) [1, 2, 1, 3] :=
  cache_transparency (fun n : Nat => n * n) (fun _ => none) [1, 2, 1, 3]
    (fun _ v h => by cases h)
